import Mathlib

/-!
Verification of the bounded FIFO sample cache (`src/src/mem_cache.c`), the
consumer transmit handler (`src/src/main.c`, `tx_timer_handler`), and the
half-precision float decoder (`src/src/sensor_mock.c`, `uint16_to_double`)
of the `zephyr_ble` repository.

The cache is embedded as a record over an arbitrary payload type `α`
(the C code stores `sensor_sample_t` values and copies them with `memcpy`;
copy-by-value is modelled by Lean's value semantics).  The slot array
`data[CONFIG_CACHE_SIZE]` is modelled as a total function `Nat → α`; the
capacity `CONFIG_CACHE_SIZE` is the explicit parameter `C`.  The mutex only
serializes the critical sections, so each C function body becomes one pure
transition on the state.
-/

/-- The state of `struct mem_cache_t`: slot array, write cursor, read cursor
and occupancy count.  The `k_mutex` field has no sequential content. -/
structure mem_cache_t (α : Type) where
  data : Nat → α
  write_idx : Nat
  read_idx : Nat
  count : Nat

/-- `mem_cache_push` from `mem_cache.c`: reject when `count == CONFIG_CACHE_SIZE`,
otherwise store at `write_idx`, advance `write_idx` modulo the capacity and
increment `count`.  Returns the C function's `bool` together with the state
after the call. -/
def mem_cache_push {α : Type} (C : Nat) (s : mem_cache_t α) (sample : α) :
    Bool × mem_cache_t α :=
  if s.count = C then
    (false, s)
  else
    (true,
      { data := fun i => if i = s.write_idx then sample else s.data i
        write_idx := (s.write_idx + 1) % C
        read_idx := s.read_idx
        count := s.count + 1 })

/-- `mem_cache_pop` from `mem_cache.c`: on `count == 0` return `false` without
touching `*out`; otherwise copy the slot at `read_idx` into `*out`, advance
`read_idx` modulo the capacity and decrement `count`.  The triple is the C
function's `bool`, the cache state after the call, and the contents of the
caller's `out` buffer after the call (`out` holds `out0` before the call). -/
def mem_cache_pop {α : Type} (C : Nat) (s : mem_cache_t α) (out0 : α) :
    Bool × mem_cache_t α × α :=
  if s.count = 0 then
    (false, s, out0)
  else
    (true,
      { data := s.data
        write_idx := s.write_idx
        read_idx := (s.read_idx + 1) % C
        count := s.count - 1 },
      s.data s.read_idx)

/-- `mem_cache_count` from `mem_cache.c`. -/
def mem_cache_count {α : Type} (s : mem_cache_t α) : Nat :=
  s.count

/-- `mem_cache_init` from `mem_cache.c`: zero `count`, `read_idx` and
`write_idx`.  The slot array is left as found (`d`). -/
def mem_cache_init {α : Type} (d : Nat → α) : mem_cache_t α :=
  { data := d, write_idx := 0, read_idx := 0, count := 0 }

/-- C1: pushing into a cache whose `count` equals the capacity `C` returns
`false` and leaves every component of the state — `count`, the write cursor,
the read cursor, and the contents of every slot — unchanged; in particular no
older entry is evicted. -/
theorem push_on_full_rejects_and_preserves_state {α : Type} (C : Nat)
    (s : mem_cache_t α) (sample : α) (h : s.count = C) :
    (mem_cache_push C s sample).1 = false ∧
    (mem_cache_push C s sample).2.count = s.count ∧
    (mem_cache_push C s sample).2.write_idx = s.write_idx ∧
    (mem_cache_push C s sample).2.read_idx = s.read_idx ∧
    ∀ i, (mem_cache_push C s sample).2.data i = s.data i := by
  simp [mem_cache_push, h]

theorem push_on_full_rejects_witness :
    (mem_cache_t.mk (fun _ => 7) 0 0 2 : mem_cache_t Nat).count = 2 ∧
    ((mem_cache_push 2 (mem_cache_t.mk (fun _ => 7) 0 0 2) 9).1 = false ∧
     (mem_cache_push 2 (mem_cache_t.mk (fun _ => 7) 0 0 2) 9).2.count =
       (mem_cache_t.mk (fun _ => 7) 0 0 2 : mem_cache_t Nat).count ∧
     (mem_cache_push 2 (mem_cache_t.mk (fun _ => 7) 0 0 2) 9).2.write_idx =
       (mem_cache_t.mk (fun _ => 7) 0 0 2 : mem_cache_t Nat).write_idx ∧
     (mem_cache_push 2 (mem_cache_t.mk (fun _ => 7) 0 0 2) 9).2.read_idx =
       (mem_cache_t.mk (fun _ => 7) 0 0 2 : mem_cache_t Nat).read_idx ∧
     ∀ i, (mem_cache_push 2 (mem_cache_t.mk (fun _ => 7) 0 0 2) 9).2.data i =
       (mem_cache_t.mk (fun _ => 7) 0 0 2 : mem_cache_t Nat).data i) :=
  ⟨rfl, push_on_full_rejects_and_preserves_state 2 _ 9 rfl⟩

/-- C2: popping from a cache whose `count` is `0` returns the empty outcome
(`false`, no sample) and leaves every component of the state — `count`, the
write cursor, the read cursor, and all slot contents — unchanged. -/
theorem pop_on_empty_fails_and_preserves_state {α : Type} (C : Nat)
    (s : mem_cache_t α) (out0 : α) (h : s.count = 0) :
    (mem_cache_pop C s out0).1 = false ∧
    (mem_cache_pop C s out0).2.1.count = s.count ∧
    (mem_cache_pop C s out0).2.1.write_idx = s.write_idx ∧
    (mem_cache_pop C s out0).2.1.read_idx = s.read_idx ∧
    ∀ i, (mem_cache_pop C s out0).2.1.data i = s.data i := by
  simp [mem_cache_pop, h]

theorem pop_on_empty_fails_witness :
    (mem_cache_t.mk (fun _ => 4) 1 1 0 : mem_cache_t Nat).count = 0 ∧
    ((mem_cache_pop 3 (mem_cache_t.mk (fun _ => 4) 1 1 0) 8).1 = false ∧
     (mem_cache_pop 3 (mem_cache_t.mk (fun _ => 4) 1 1 0) 8).2.1.count =
       (mem_cache_t.mk (fun _ => 4) 1 1 0 : mem_cache_t Nat).count ∧
     (mem_cache_pop 3 (mem_cache_t.mk (fun _ => 4) 1 1 0) 8).2.1.write_idx =
       (mem_cache_t.mk (fun _ => 4) 1 1 0 : mem_cache_t Nat).write_idx ∧
     (mem_cache_pop 3 (mem_cache_t.mk (fun _ => 4) 1 1 0) 8).2.1.read_idx =
       (mem_cache_t.mk (fun _ => 4) 1 1 0 : mem_cache_t Nat).read_idx ∧
     ∀ i, (mem_cache_pop 3 (mem_cache_t.mk (fun _ => 4) 1 1 0) 8).2.1.data i =
       (mem_cache_t.mk (fun _ => 4) 1 1 0 : mem_cache_t Nat).data i) :=
  ⟨rfl, pop_on_empty_fails_and_preserves_state 3 _ 8 rfl⟩

/-- C10: when `mem_cache_pop` is called on an empty cache (`count == 0`), the
caller's `out` buffer is never written: after the call it holds exactly the
value `out0` it held before, in addition to the `false` return. -/
theorem pop_on_empty_leaves_out_untouched {α : Type} (C : Nat)
    (s : mem_cache_t α) (out0 : α) (h : s.count = 0) :
    (mem_cache_pop C s out0).1 = false ∧
    (mem_cache_pop C s out0).2.2 = out0 := by
  simp [mem_cache_pop, h]

theorem pop_on_empty_leaves_out_untouched_witness :
    (mem_cache_t.mk (fun _ => 4) 2 2 0 : mem_cache_t Nat).count = 0 ∧
    ((mem_cache_pop 5 (mem_cache_t.mk (fun _ => 4) 2 2 0) 77).1 = false ∧
     (mem_cache_pop 5 (mem_cache_t.mk (fun _ => 4) 2 2 0) 77).2.2 = 77) :=
  ⟨rfl, pop_on_empty_leaves_out_untouched 5 _ 77 rfl⟩

/-!
Operation sequences.  The producer and consumer call `mem_cache_push` and
`mem_cache_pop` from timer contexts; the mutex serializes the calls, so any
concurrent execution is some interleaved sequence of the two operations
applied to the single cache instance.  `d` is the scratch value held by the
caller's `out` buffer before a pop (its value never matters).
-/

/-- One serialized cache operation. -/
inductive CacheOp (α : Type) where
  | push (sample : α)
  | pop
deriving DecidableEq

/-- State after running a sequence of serialized cache operations. -/
def runCache {α : Type} (C : Nat) (d : α) : mem_cache_t α → List (CacheOp α) → mem_cache_t α
  | s, [] => s
  | s, CacheOp.push a :: ops => runCache C d (mem_cache_push C s a).2 ops
  | s, CacheOp.pop :: ops => runCache C d (mem_cache_pop C s d).2.1 ops

/-- The samples returned by the successful pops of a run, in order. -/
def runPopped {α : Type} (C : Nat) (d : α) : mem_cache_t α → List (CacheOp α) → List α
  | _, [] => []
  | s, CacheOp.push a :: ops => runPopped C d (mem_cache_push C s a).2 ops
  | s, CacheOp.pop :: ops =>
    if (mem_cache_pop C s d).1 then
      (mem_cache_pop C s d).2.2 :: runPopped C d (mem_cache_pop C s d).2.1 ops
    else
      runPopped C d (mem_cache_pop C s d).2.1 ops

/-- Number of push operations in a sequence (accepted or rejected). -/
def numPushes {α : Type} : List (CacheOp α) → Nat
  | [] => 0
  | CacheOp.push _ :: ops => numPushes ops + 1
  | CacheOp.pop :: ops => numPushes ops

/-- The samples passed to the successive pushes of a sequence, in order. -/
def pushedArgs {α : Type} : List (CacheOp α) → List α
  | [] => []
  | CacheOp.push a :: ops => a :: pushedArgs ops
  | CacheOp.pop :: ops => pushedArgs ops

/-- Number of pushes of a run that were accepted (returned `true`). -/
def numAccepted {α : Type} (C : Nat) (d : α) : mem_cache_t α → List (CacheOp α) → Nat
  | _, [] => 0
  | s, CacheOp.push a :: ops =>
    (if (mem_cache_push C s a).1 then 1 else 0) + numAccepted C d (mem_cache_push C s a).2 ops
  | s, CacheOp.pop :: ops => numAccepted C d (mem_cache_pop C s d).2.1 ops

/-- Helper for C3: from any state with `count ≤ C`, the count stays below the
capacity and evolves by exactly the accepted pushes and successful pops. -/
theorem runCache_count_invariant {α : Type} (C : Nat) (d : α) (ops : List (CacheOp α)) :
    ∀ s : mem_cache_t α, s.count ≤ C →
      (runCache C d s ops).count ≤ C ∧
      (runCache C d s ops).count + (runPopped C d s ops).length =
        s.count + numAccepted C d s ops := by
  induction ops with
  | nil => intro s hs; simpa [runCache, runPopped, numAccepted] using hs
  | cons op ops ih =>
    intro s hs
    cases op with
    | push a =>
      by_cases hc : s.count = C
      · have hpush : mem_cache_push C s a = (false, s) := by
          simp [mem_cache_push, hc]
        have h := ih s hs
        simp [runCache, runPopped, numAccepted, hpush]
        omega
      · have hpush : (mem_cache_push C s a).1 = true ∧
            (mem_cache_push C s a).2.count = s.count + 1 := by
          simp [mem_cache_push, hc]
        have hcount : (mem_cache_push C s a).2.count ≤ C := by omega
        have h := ih (mem_cache_push C s a).2 hcount
        simp only [runCache, runPopped, numAccepted, hpush.1, if_true]
        omega
    | pop =>
      by_cases hz : s.count = 0
      · have hpop : mem_cache_pop C s d = (false, s, d) := by
          simp [mem_cache_pop, hz]
        have h := ih s hs
        simp [runCache, runPopped, numAccepted, hpop]
        omega
      · have hpop : (mem_cache_pop C s d).1 = true ∧
            (mem_cache_pop C s d).2.1.count = s.count - 1 := by
          simp [mem_cache_pop, hz]
        have hcount : (mem_cache_pop C s d).2.1.count ≤ C := by omega
        have h := ih (mem_cache_pop C s d).2.1 hcount
        simp only [runCache, runPopped, numAccepted, hpop.1, if_true, List.length_cons]
        omega

/-- C3 counterexample: the claim as stated counts every push, accepted or not.
With capacity 1, the sequence push 5, push 6 (second push rejected) ends with
`count = 1`, while pushes minus successful pops is `2 - 0 = 2`. -/
theorem count_eq_pushes_minus_pops_counterexample :
    (runCache 1 0 (mem_cache_init fun _ => 0)
        [CacheOp.push 5, CacheOp.push 6]).count = 1 ∧
    numPushes [CacheOp.push 5, CacheOp.push (6 : Nat)] -
      (runPopped 1 0 (mem_cache_init fun _ => 0)
        [CacheOp.push 5, CacheOp.push 6]).length = 2 := by
  constructor <;> rfl

/-- C3 amended: for every sequence of push and pop operations applied from the
initial state (count 0, both cursors 0), at every point `0 ≤ count ≤ C` holds,
and `count` equals the number of *accepted* pushes minus the number of
successful pops performed so far (stated additively, which also shows the
successful pops never exceed the accepted pushes). -/
theorem runCache_count_le_and_eq_accepted_sub_popped {α : Type} (C : Nat) (d : α)
    (d0 : Nat → α) (ops : List (CacheOp α)) :
    (runCache C d (mem_cache_init d0) ops).count ≤ C ∧
    (runCache C d (mem_cache_init d0) ops).count +
        (runPopped C d (mem_cache_init d0) ops).length =
      numAccepted C d (mem_cache_init d0) ops := by
  have h := runCache_count_invariant C d ops (mem_cache_init d0) (by simp [mem_cache_init])
  simpa [mem_cache_init] using h

/-!
FIFO order.  The logical queue held by a well-formed cache state is the run
of `count` slots starting at the read cursor and wrapping modulo `C`.
-/

/-- Structural well-formedness of a cache state: maintained by `mem_cache_push`
and `mem_cache_pop` and established by `mem_cache_init` (for capacity `C > 0`). -/
def bufWF {α : Type} (C : Nat) (s : mem_cache_t α) : Prop :=
  s.count ≤ C ∧ s.read_idx < C ∧ s.write_idx = (s.read_idx + s.count) % C

/-- The logical FIFO contents of a cache state, oldest first. -/
def bufList {α : Type} (C : Nat) (s : mem_cache_t α) : List α :=
  (List.range s.count).map fun i => s.data ((s.read_idx + i) % C)

/-- `true` iff every push of the run is accepted (no capacity rejection). -/
def allPushesAccepted {α : Type} (C : Nat) (d : α) : mem_cache_t α → List (CacheOp α) → Bool
  | _, [] => true
  | s, CacheOp.push a :: ops =>
    (mem_cache_push C s a).1 && allPushesAccepted C d (mem_cache_push C s a).2 ops
  | s, CacheOp.pop :: ops => allPushesAccepted C d (mem_cache_pop C s d).2.1 ops

theorem add_mod_ne_of_lt {C r i j : Nat} (hi : i < C) (hj : j < C) (hij : i ≠ j) :
    (r + i) % C ≠ (r + j) % C := by
  intro h
  have h2 : i ≡ j [MOD C] := Nat.ModEq.add_left_cancel' r h
  rw [Nat.ModEq, Nat.mod_eq_of_lt hi, Nat.mod_eq_of_lt hj] at h2
  exact hij h2

/-- An accepted push appends its sample at the back of the logical queue and
preserves well-formedness. -/
theorem bufList_push {α : Type} (C : Nat) (s : mem_cache_t α) (a : α)
    (hWF : bufWF C s) (hc : s.count ≠ C) :
    bufList C (mem_cache_push C s a).2 = bufList C s ++ [a] ∧
    bufWF C (mem_cache_push C s a).2 := by
  obtain ⟨hcount, hread, hwrite⟩ := hWF
  have hlt : s.count < C := lt_of_le_of_ne hcount hc
  have hpush : (mem_cache_push C s a).2 =
      { data := fun i => if i = s.write_idx then a else s.data i
        write_idx := (s.write_idx + 1) % C
        read_idx := s.read_idx
        count := s.count + 1 } := by
    simp [mem_cache_push, hc]
  constructor
  · rw [hpush]
    simp only [bufList, List.range_succ, List.map_append, List.map_cons, List.map_nil]
    congr 1
    · apply List.map_congr_left
      intro i hi
      have hi' : i < s.count := List.mem_range.mp hi
      have hne : (s.read_idx + i) % C ≠ s.write_idx := by
        rw [hwrite]
        exact add_mod_ne_of_lt (lt_trans hi' hlt) hlt (Nat.ne_of_lt hi')
      simp [hne]
    · have heq : (s.read_idx + s.count) % C = s.write_idx := hwrite.symm
      simp [heq]
  · rw [hpush]
    refine ⟨?_, hread, ?_⟩
    · show s.count + 1 ≤ C
      omega
    · show (s.write_idx + 1) % C = (s.read_idx + (s.count + 1)) % C
      rw [hwrite, Nat.mod_add_mod, Nat.add_assoc]

/-- A successful pop returns the head of the logical queue, leaves the tail,
and preserves well-formedness. -/
theorem bufList_pop {α : Type} (C : Nat) (s : mem_cache_t α) (d : α)
    (hWF : bufWF C s) (hz : s.count ≠ 0) :
    bufList C s = (mem_cache_pop C s d).2.2 :: bufList C (mem_cache_pop C s d).2.1 ∧
    bufWF C (mem_cache_pop C s d).2.1 := by
  obtain ⟨hcount, hread, hwrite⟩ := hWF
  have hC : 0 < C := lt_of_le_of_lt (Nat.zero_le _) hread
  have hpop : (mem_cache_pop C s d).2 =
      ({ data := s.data
         write_idx := s.write_idx
         read_idx := (s.read_idx + 1) % C
         count := s.count - 1 }, s.data s.read_idx) := by
    simp [mem_cache_pop, hz]
  obtain ⟨k, hk⟩ : ∃ k, s.count = k + 1 := ⟨s.count - 1, by omega⟩
  constructor
  · rw [hpop]
    simp only [bufList, hk, Nat.add_sub_cancel, List.range_succ_eq_map, List.map_cons,
      List.map_map]
    congr 1
    · rw [Nat.add_zero, Nat.mod_eq_of_lt hread]
    · apply List.map_congr_left
      intro i _
      simp only [Function.comp_apply]
      rw [Nat.mod_add_mod]
      congr 2
      omega
  · rw [hpop]
    refine ⟨?_, Nat.mod_lt _ hC, ?_⟩
    · show s.count - 1 ≤ C
      omega
    · show s.write_idx = ((s.read_idx + 1) % C + (s.count - 1)) % C
      rw [Nat.mod_add_mod, hwrite]
      congr 1
      omega

/-- Helper for C4: over any run whose pushes are all accepted, the samples
already buffered followed by the pushed samples are exactly the popped samples
followed by the samples still buffered at the end, in order. -/
theorem runCache_fifo_invariant {α : Type} (C : Nat) (d : α) (ops : List (CacheOp α)) :
    ∀ s : mem_cache_t α, bufWF C s → allPushesAccepted C d s ops = true →
      bufList C s ++ pushedArgs ops =
        runPopped C d s ops ++ bufList C (runCache C d s ops) := by
  induction ops with
  | nil => intro s _ _; simp [pushedArgs, runPopped, runCache]
  | cons op ops ih =>
    intro s hWF hAcc
    cases op with
    | push a =>
      rw [allPushesAccepted, Bool.and_eq_true] at hAcc
      have hc : s.count ≠ C := by
        intro hc
        have : (mem_cache_push C s a).1 = false := by simp [mem_cache_push, hc]
        rw [this] at hAcc
        exact Bool.false_ne_true hAcc.1
      obtain ⟨hlist, hWF'⟩ := bufList_push C s a hWF hc
      calc bufList C s ++ pushedArgs (CacheOp.push a :: ops)
          = (bufList C s ++ [a]) ++ pushedArgs ops := by
            simp [pushedArgs]
        _ = bufList C (mem_cache_push C s a).2 ++ pushedArgs ops := by rw [hlist]
        _ = runPopped C d (mem_cache_push C s a).2 ops ++
              bufList C (runCache C d (mem_cache_push C s a).2 ops) :=
            ih _ hWF' hAcc.2
        _ = runPopped C d s (CacheOp.push a :: ops) ++
              bufList C (runCache C d s (CacheOp.push a :: ops)) := by
            rw [runPopped, runCache]
    | pop =>
      rw [allPushesAccepted] at hAcc
      by_cases hz : s.count = 0
      · have hpop : mem_cache_pop C s d = (false, s, d) := by
          simp [mem_cache_pop, hz]
        have hempty : bufList C s = [] := by simp [bufList, hz]
        have h := ih s hWF (by rw [hpop] at hAcc; exact hAcc)
        simp only [runPopped, runCache, pushedArgs, hpop, hempty] at h ⊢
        simpa using h
      · obtain ⟨hlist, hWF'⟩ := bufList_pop C s d hWF hz
        have hb : (mem_cache_pop C s d).1 = true := by simp [mem_cache_pop, hz]
        have h := ih (mem_cache_pop C s d).2.1 hWF' hAcc
        calc bufList C s ++ pushedArgs (CacheOp.pop :: ops)
            = ((mem_cache_pop C s d).2.2 :: bufList C (mem_cache_pop C s d).2.1) ++
                pushedArgs ops := by rw [pushedArgs, hlist]
          _ = (mem_cache_pop C s d).2.2 ::
                (runPopped C d (mem_cache_pop C s d).2.1 ops ++
                  bufList C (runCache C d (mem_cache_pop C s d).2.1 ops)) := by
              rw [List.cons_append, h]
          _ = runPopped C d s (CacheOp.pop :: ops) ++
                bufList C (runCache C d s (CacheOp.pop :: ops)) := by
              simp [runPopped, runCache, hb]

/-- C4: FIFO order.  For every run from the initial state (capacity `C > 0`)
in which no push is rejected for capacity, the samples passed to the
successive pushes are exactly the samples returned by the successive
successful pops followed by the samples still buffered at the end, in order;
so the popped sequence is the pushed sequence up to the number of pops. -/
theorem fifo_order_of_no_rejected_push {α : Type} (C : Nat) (d : α) (d0 : Nat → α)
    (ops : List (CacheOp α)) (hC : 0 < C)
    (hAcc : allPushesAccepted C d (mem_cache_init d0) ops = true) :
    pushedArgs ops =
      runPopped C d (mem_cache_init d0) ops ++
        bufList C (runCache C d (mem_cache_init d0) ops) := by
  have hWF : bufWF C (mem_cache_init d0) := by
    refine ⟨by simp [mem_cache_init], by simpa [mem_cache_init] using hC, ?_⟩
    simp [mem_cache_init]
  have h := runCache_fifo_invariant C d ops (mem_cache_init d0) hWF hAcc
  have hempty : bufList C (mem_cache_init d0) = [] := by
    simp [bufList, mem_cache_init]
  rwa [hempty, List.nil_append] at h

theorem fifo_order_witness :
    (0 < 2 ∧
      allPushesAccepted 2 0 (mem_cache_init fun _ => 0)
        [CacheOp.push 1, CacheOp.push 2, CacheOp.pop, CacheOp.push 3, CacheOp.pop] = true) ∧
    pushedArgs [CacheOp.push 1, CacheOp.push 2, CacheOp.pop, CacheOp.push 3, CacheOp.pop] =
      runPopped 2 0 (mem_cache_init fun _ => 0)
          [CacheOp.push 1, CacheOp.push 2, CacheOp.pop, CacheOp.push 3, CacheOp.pop] ++
        bufList 2 (runCache 2 0 (mem_cache_init fun _ => 0)
          [CacheOp.push 1, CacheOp.push 2, CacheOp.pop, CacheOp.push 3, CacheOp.pop]) :=
  ⟨⟨by decide, by decide⟩,
    fifo_order_of_no_rejected_push 2 0 (fun _ => 0) _ (by decide) (by decide)⟩

/-!
Tail-requeue reordering (consumer behaviour of `tx_timer_handler`): after a
failed delivery the consumer re-pushes the popped sample, which re-enters at
the write cursor, i.e. at the back of the FIFO.  The scenario of the claim is
the operation sequence push A, push B, pop, push A (the requeue), push Z,
pop, pop, pop.
-/

/-- C5 counterexample: with capacity exactly 2 the claimed scenario breaks
down.  After push A, push B, pop (yields A), requeue of A, the buffer is full
again, so the push of the third sample is rejected; the remaining pops yield
B then A and then nothing — not B, A, C.  Here A = 10, B = 20, C = 30. -/
theorem requeue_scenario_rejected_at_capacity_two :
    runPopped 2 0 (mem_cache_init fun _ => 0)
      [CacheOp.push 10, CacheOp.push 20, CacheOp.pop, CacheOp.push 10,
       CacheOp.push 30, CacheOp.pop, CacheOp.pop, CacheOp.pop] = [10, 20, 10] ∧
    ¬ (runPopped 2 0 (mem_cache_init fun _ => 0)
      [CacheOp.push 10, CacheOp.push 20, CacheOp.pop, CacheOp.push 10,
       CacheOp.push 30, CacheOp.pop, CacheOp.pop, CacheOp.pop] = [10, 20, 10, 30]) := by
  constructor
  · rfl
  · decide

/-- C5 amended: with capacity `C ≥ 3` (so that the intervening push is not
rejected), pushing A then B, popping (which yields A), requeuing A via push,
then pushing Z, makes the next three pops yield B, then A, then Z: the
requeued sample re-enters at the back of the FIFO, behind samples produced in
between, not at the front. -/
theorem requeue_reenters_at_tail {α : Type} (C : Nat) (d : α) (d0 : Nat → α)
    (A B Z : α) (hC : 3 ≤ C) :
    runPopped C d (mem_cache_init d0)
      [CacheOp.push A, CacheOp.push B, CacheOp.pop, CacheOp.push A,
       CacheOp.push Z, CacheOp.pop, CacheOp.pop, CacheOp.pop] = [A, B, A, Z] := by
  have h0 : ¬((0 : Nat) = C) := by omega
  have h1 : ¬((1 : Nat) = C) := by omega
  have h2 : ¬((2 : Nat) = C) := by omega
  have m1 : 1 % C = 1 := Nat.mod_eq_of_lt (by omega)
  have m2 : 2 % C = 2 := Nat.mod_eq_of_lt (by omega)
  have hm : 3 % C ≠ 1 ∧ 3 % C ≠ 2 := by
    rcases Nat.lt_or_ge C 4 with h4 | h4
    · have hc3 : C = 3 := by omega
      subst hc3
      decide
    · rw [Nat.mod_eq_of_lt (by omega)]
      omega
  have hm1 : ¬((1 : Nat) = 3 % C) := fun h => hm.1 h.symm
  have hm2 : ¬((2 : Nat) = 3 % C) := fun h => hm.2 h.symm
  simp [runPopped, mem_cache_push, mem_cache_pop, mem_cache_init, m1, m2, h0, h1, h2,
    hm1, hm2]

theorem requeue_reenters_at_tail_witness :
    3 ≤ 3 ∧
    runPopped 3 0 (mem_cache_init fun _ => 0)
      [CacheOp.push 10, CacheOp.push 20, CacheOp.pop, CacheOp.push 10,
       CacheOp.push 30, CacheOp.pop, CacheOp.pop, CacheOp.pop] = [10, 20, 10, 30] :=
  ⟨by decide, requeue_reenters_at_tail 3 0 (fun _ => 0) 10 20 30 (by decide)⟩

/-!
The producer and consumer handlers.  `sample_timer_handler` (in
`sensor_mock.c`) generates a sample from the random source and pushes it,
logging a warning when the cache is full.  `tx_timer_handler` (in `main.c`)
pops a sample and notifies it over GATT; on notify failure it logs a warning
and re-pushes the sample, ignoring the re-push's return value.  The random
sample, the connection handle, the notification flag and the result of
`bt_gatt_notify` are external inputs and appear as parameters.  Observable
events are the emitted log lines.
-/

/-- The observable (logged) events of the two timer handlers. -/
inductive log_event where
  /-- `LOG_WRN("Sample cache full, dropping sample")` in `sample_timer_handler`. -/
  | sample_cache_full_drop
  /-- `LOG_WRN("Notify failed (err %d), re-pushing sample to cache")` in
  `tx_timer_handler`. -/
  | notify_failed_repush
deriving DecidableEq

/-- `sample_timer_handler` from `sensor_mock.c`, with the generated sample as
a parameter: push it, and log a drop warning when the push is rejected. -/
def sample_timer_handler {α : Type} (C : Nat) (s : mem_cache_t α) (sample : α) :
    mem_cache_t α × List log_event :=
  if (mem_cache_push C s sample).1 then
    ((mem_cache_push C s sample).2, [])
  else
    ((mem_cache_push C s sample).2, [log_event.sample_cache_full_drop])

/-- `tx_timer_handler` from `main.c`: return immediately when there is no
active connection or notifications are not enabled; otherwise pop a sample
(returning when the cache is empty) and notify it; on notify failure
(`notify_err`), log a warning and re-push the sample, discarding the re-push's
boolean result. -/
def tx_timer_handler {α : Type} (C : Nat) (current_conn notify_enabled notify_err : Bool)
    (s : mem_cache_t α) (scratch : α) : mem_cache_t α × List log_event :=
  if !current_conn || !notify_enabled then
    (s, [])
  else if !(mem_cache_pop C s scratch).1 then
    ((mem_cache_pop C s scratch).2.1, [])
  else if notify_err then
    ((mem_cache_push C (mem_cache_pop C s scratch).2.1 (mem_cache_pop C s scratch).2.2).2,
      [log_event.notify_failed_repush])
  else
    ((mem_cache_pop C s scratch).2.1, [])

/-- Push a list of samples in order (return values discarded). -/
def push_all {α : Type} (C : Nat) (s : mem_cache_t α) : List α → mem_cache_t α
  | [] => s
  | a :: rest => push_all C (mem_cache_push C s a).2 rest

/-- Modelled from the spec: §5 makes the Producer and Consumer independent
periodic activations whose cache operations serialize through the single
lock, so the Producer may run — and push — between the Consumer's pop and its
re-push after a notify failure.  `producer_pushes` are the samples the
Producer pushes in that window; apart from that interleaving point this is
`tx_timer_handler` verbatim. -/
def tx_timer_handler_interleaved {α : Type} (C : Nat)
    (current_conn notify_enabled notify_err : Bool) (producer_pushes : List α)
    (s : mem_cache_t α) (scratch : α) : mem_cache_t α × List log_event :=
  if !current_conn || !notify_enabled then
    (s, [])
  else if !(mem_cache_pop C s scratch).1 then
    ((mem_cache_pop C s scratch).2.1, [])
  else if notify_err then
    ((mem_cache_push C (push_all C (mem_cache_pop C s scratch).2.1 producer_pushes)
        (mem_cache_pop C s scratch).2.2).2,
      [log_event.notify_failed_repush])
  else
    (push_all C (mem_cache_pop C s scratch).2.1 producer_pushes, [])

/-- C8: a consumer activation with no active connection or with notifications
not enabled is a no-op: it performs no pop, emits no event, and the cache
state (count, cursors, slot contents) is exactly the same afterwards. -/
theorem tx_timer_handler_noop_when_gated {α : Type} (C : Nat)
    (current_conn notify_enabled notify_err : Bool) (s : mem_cache_t α) (scratch : α)
    (h : current_conn = false ∨ notify_enabled = false) :
    tx_timer_handler C current_conn notify_enabled notify_err s scratch = (s, []) := by
  rcases h with h | h <;> simp [tx_timer_handler, h]

theorem tx_timer_handler_noop_when_gated_witness :
    ((false : Bool) = false ∨ (true : Bool) = false) ∧
    tx_timer_handler 4 false true true (mem_cache_t.mk (fun _ => 3) 1 0 1) 0 =
      (mem_cache_t.mk (fun _ => 3) 1 0 1, []) :=
  ⟨Or.inl rfl,
    tx_timer_handler_noop_when_gated 4 false true true _ 0 (Or.inl rfl)⟩

/-- C7: the silent requeue-failure drop.  Capacity 1; the cache holds one
sample (the value 5); the consumer pops it, `bt_gatt_notify` fails, and the
producer pushes a sample (7) between the pop and the requeue, so the requeue
finds the cache full and returns `false` — the popped sample is permanently
dropped.  The handler discards that return value: the emitted events are
exactly the same `[notify_failed_repush]` as in the identical run without the
interleaved producer push, where the requeue succeeds and nothing is lost; no
event reports the drop — unlike the producer's own drop-on-full, which logs
`sample_cache_full_drop`.  So the drop is not observable, contradicting the
claim. -/
theorem requeue_failure_drop_is_silent :
    (mem_cache_push 1
        (push_all 1 (mem_cache_pop 1 (mem_cache_t.mk (fun _ => 5) 0 0 1) 0).2.1 [7])
        (mem_cache_pop 1 (mem_cache_t.mk (fun _ => 5) 0 0 1) 0).2.2).1 = false ∧
    (tx_timer_handler_interleaved 1 true true true [7]
        (mem_cache_t.mk (fun _ => 5) 0 0 1) 0).2 = [log_event.notify_failed_repush] ∧
    (tx_timer_handler_interleaved 1 true true true []
        (mem_cache_t.mk (fun _ => 5) 0 0 1) 0).2 = [log_event.notify_failed_repush] ∧
    (sample_timer_handler 1 (mem_cache_t.mk (fun _ => 5) 0 0 1) 9).2 =
      [log_event.sample_cache_full_drop] := by
  refine ⟨rfl, rfl, rfl, rfl⟩

/-!
The half-precision decoder `uint16_to_double` from `sensor_mock.c`
(`UINT16_TO_DOUBLE_SCALABLE == 0` branch, the compiled one).  Every
half-precision value, including the subnormals, is exactly representable in
the C `double`, and `ldexp`, the `/ 1024.0` division and the `1.0 + …`
addition are exact for these operand ranges, so the double results are
modelled exactly: an IEEE double is a sign together with a non-negative
rational magnitude, or an infinity, or NaN.  Signed zero is `finite s 0`.
-/

/-- An exactly-represented C `double` result: sign and magnitude (covering
signed zero), infinities, or NaN. -/
inductive double_val where
  | finite (neg : Bool) (mag : ℚ)
  | pos_inf
  | neg_inf
  | nan
deriving DecidableEq

/-- IEEE negation (the C unary minus): flip the sign bit. -/
def double_val.negate : double_val → double_val
  | finite s m => finite (!s) m
  | pos_inf => neg_inf
  | neg_inf => pos_inf
  | nan => nan

/-- `ldexp(x, e) = x * 2^e`, exact for the exponent ranges used here. -/
def ldexp (x : ℚ) (e : ℤ) : ℚ := x * 2 ^ e

/-- `uint16_to_double` from `sensor_mock.c`: split the 16-bit input into sign
(bit 15), exponent (bits 10–14) and mantissa (bits 0–9); subnormals are
`ldexp(mant, -24)`, exponent 31 gives NaN or a signed infinity, and normal
numbers are `ldexp(1 + mant/1024, exp - 15)`; the sign is applied by the C
conditional `sign ? -value : value`. -/
def uint16_to_double (u16 : Nat) : double_val :=
  let sign : Nat := (u16 >>> 15) &&& 0x1
  let exp : Nat := (u16 >>> 10) &&& 0x1F
  let mant : Nat := u16 &&& 0x3FF
  if exp = 0 then
    let value := double_val.finite false (ldexp (mant : ℚ) (-24))
    if sign ≠ 0 then value.negate else value
  else if exp = 31 then
    (if mant ≠ 0 then double_val.nan
     else if sign ≠ 0 then double_val.pos_inf.negate else double_val.pos_inf)
  else
    let value := double_val.finite false (ldexp (1 + (mant : ℚ) / 1024) ((exp : ℤ) - 15))
    if sign ≠ 0 then value.negate else value

/-- The decoding the spec prescribes, written from its words: the exponent
field is bits 10–14, the mantissa field bits 0–9, the sign bit 15; exponent 0
gives mantissa × 2^(−24) with the sign applied, exponent 31 gives NaN for
nonzero mantissa and a signed infinity otherwise, and any other exponent
gives (1 + mantissa/1024) × 2^(exponent − 15) with the sign applied. -/
def half_decode_spec (u : Nat) : double_val :=
  let signBit : Nat := u / 2 ^ 15 % 2
  let expField : Nat := u / 2 ^ 10 % 2 ^ 5
  let mantField : Nat := u % 2 ^ 10
  if expField = 0 then
    double_val.finite (signBit == 1) ((mantField : ℚ) * 2 ^ (-24 : ℤ))
  else if expField = 31 then
    (if mantField ≠ 0 then double_val.nan
     else if signBit == 1 then double_val.neg_inf else double_val.pos_inf)
  else
    double_val.finite (signBit == 1) ((1 + (mantField : ℚ) / 1024) * 2 ^ ((expField : ℤ) - 15))

/-- Helper for C6: the code's decoder agrees with the spec's decoding on
every input. -/
theorem decode_eq_spec (u : Nat) : uint16_to_double u = half_decode_spec u := by
  have hs : (u >>> 15) &&& 0x1 = u / 2 ^ 15 % 2 := by
    rw [Nat.shiftRight_eq_div_pow, Nat.and_one_is_mod]
  have he : (u >>> 10) &&& 0x1F = u / 2 ^ 10 % 2 ^ 5 := by
    rw [Nat.shiftRight_eq_div_pow]
    have h := Nat.and_pow_two_sub_one_eq_mod (u / 2 ^ 10) 5
    norm_num at h
    exact h
  have hm : u &&& 0x3FF = u % 2 ^ 10 := by
    have h := Nat.and_pow_two_sub_one_eq_mod u 10
    norm_num at h
    exact h
  rcases Nat.mod_two_eq_zero_or_one (u / 32768) with h0 | h0 <;>
    simp [uint16_to_double, half_decode_spec, hs, he, hm, ldexp, h0, double_val.negate]

/-- C6: `uint16_to_double` is total on the 65536 sixteen-bit patterns (it is
a Lean function, so it has no error path) and decodes each exactly as
half-precision semantics prescribe: subnormals as mantissa × 2^(−24) with the
sign applied, exponent 31 as NaN (mantissa ≠ 0) or signed infinity, and
normal numbers as (1 + mantissa/1024) × 2^(exponent − 15) with the sign
applied; in particular 0x0000 → 0.0, 0x8000 → −0.0, 0x3C00 → 1.0,
0x7C00 → +∞, 0xFC00 → −∞, 0x7E00 → NaN, 0x0001 → 2^(−24) and
0x7BFF → 65504.0. -/
theorem uint16_to_double_matches_half_precision :
    (∀ u : Nat, u < 65536 → uint16_to_double u = half_decode_spec u) ∧
    uint16_to_double 0x0000 = double_val.finite false 0 ∧
    uint16_to_double 0x8000 = double_val.finite true 0 ∧
    uint16_to_double 0x3C00 = double_val.finite false 1 ∧
    uint16_to_double 0x7C00 = double_val.pos_inf ∧
    uint16_to_double 0xFC00 = double_val.neg_inf ∧
    uint16_to_double 0x7E00 = double_val.nan ∧
    uint16_to_double 0x0001 = double_val.finite false (2 ^ (-24 : ℤ)) ∧
    uint16_to_double 0x7BFF = double_val.finite false 65504 := by
  refine ⟨fun u _ => decode_eq_spec u, ?_, ?_, ?_, ?_, ?_, ?_, ?_, ?_⟩ <;>
    · rw [decode_eq_spec]
      norm_num [half_decode_spec]

theorem uint16_to_double_matches_half_precision_witness :
    (15361 : Nat) < 65536 ∧ uint16_to_double 15361 = half_decode_spec 15361 :=
  ⟨by norm_num, uint16_to_double_matches_half_precision.1 15361 (by norm_num)⟩
